import Mathlib

/-!
Verification of the history-retention and selection state machine of the
repository (src/history.py): a shallow embedding of `update_history`
(lines 346-396, and the earlier copy at lines 127-180) and
`cleanup_old_html_files` (lines 401-429), together with theorems about the
retention, deduplication, ordering, sampling and janitor behaviour.

Modelling conventions:
- Decoded JSON values (the result of Python's `json.load`) are modelled by
  the inductive type `PyVal`.  JSON floats are not included; like ints and
  bools, a float in a `date` field would raise `TypeError` in
  `datetime.strptime`, so their omission does not change any statement
  conditioned on a successful run.
- Python exceptions that the source code can raise or catch are modelled by
  `PyErr`; fallible steps return `Except PyErr`.
- A Python `datetime` is modelled by its count of microseconds since
  0001-01-01 00:00:00 (the proleptic Gregorian calendar, exactly Python's
  `datetime.toordinal` minus one times the microseconds per day plus the
  time of day).  `datetime.strptime(s, "%Y/%m/%d")` yields a midnight
  value; `datetime.now()` carries a time of day.
- The history file is abstracted to `FileState`: `Option.none` means the
  file does not exist; `Option.some Option.none` means the file exists but
  `json.load` raises `json.JSONDecodeError` (which covers both an empty
  file and syntactically invalid JSON); `Option.some (Option.some v)` means
  the file decodes to the value `v`.
- Randomness (`random.sample`) is modelled by an explicit stream of draws
  `rand : Nat -> Nat`: at step `i` the algorithm removes the element at
  position `rand i %% remaining-pool-size`, a faithful model of sampling
  without replacement that is parametric in the random source.
-/

/-- A decoded JSON value as produced by Python's `json.load`. -/
inductive PyVal where
  | str : String → PyVal
  | int : Int → PyVal
  | bool : Bool → PyVal
  | null : PyVal
  | list : List PyVal → PyVal
  | dict : List (String × PyVal) → PyVal

/-- The Python exception classes relevant to src/history.py.  `valueError`
stands for `ValueError` (raised by `datetime.strptime` on a malformed date
string and caught by the source), `keyError` for `KeyError` (raised by
`entry["date"]` on a dict without that key, not caught), `typeError` for
`TypeError` (raised by subscripting a non-dict, by `strptime` on a
non-string, or by iterating a non-iterable, not caught). -/
inductive PyErr where
  | valueError : PyErr
  | keyError : PyErr
  | typeError : PyErr
deriving DecidableEq

/-- A calendar date, the triple parsed by `datetime.strptime`. -/
structure Date where
  y : ℕ
  m : ℕ
  d : ℕ
deriving DecidableEq

/-- Gregorian leap-year rule, as implemented by Python's `datetime`. -/
def isLeap (y : ℕ) : Bool := y % 4 == 0 && (y % 100 != 0 || y % 400 == 0)

/-- Length of month `m` of year `y` (Python `calendar`/`datetime` rule). -/
def daysInMonth (y m : ℕ) : ℕ :=
  if m = 2 then (if isLeap y then 29 else 28)
  else if m = 4 ∨ m = 6 ∨ m = 9 ∨ m = 11 then 30
  else 31

/-- Number of leap years in the range 1..n. -/
def leapCount (n : ℕ) : ℕ := (n / 4 - n / 100) + n / 400

/-- Days in years 1..y-1, so that 0001-01-01 is day 0. -/
def daysBeforeYear (y : ℕ) : ℕ := 365 * (y - 1) + leapCount (y - 1)

/-- Days in months 1..m-1 of year y. -/
def daysBeforeMonth (y m : ℕ) : ℕ :=
  ((List.range' 1 (m - 1)).map (daysInMonth y)).sum

/-- Day number of a date with 0001-01-01 as day 0; this is Python's
`date.toordinal()` minus one, so comparing day numbers is exactly comparing
Python `date`/midnight-`datetime` values. -/
def dayNumber (dt : Date) : ℕ :=
  daysBeforeYear dt.y + daysBeforeMonth dt.y dt.m + (dt.d - 1)

/-- Microseconds per day; Python datetime arithmetic is exact in
microseconds, so a `datetime` is faithfully a count of microseconds. -/
def microsPerDay : ℕ := 86400000000

/-- The dates representable by Python's `datetime` (year 1..9999) that its
constructor accepts. -/
def ValidDate (dt : Date) : Prop :=
  1 ≤ dt.y ∧ dt.y ≤ 9999 ∧ 1 ≤ dt.m ∧ dt.m ≤ 12 ∧ 1 ≤ dt.d ∧ dt.d ≤ daysInMonth dt.y dt.m

instance (dt : Date) : Decidable (ValidDate dt) := by
  unfold ValidDate; infer_instance

/-- The value of `datetime.now()` at the moment of execution: its calendar
date and its time of day in microseconds after midnight. -/
structure Now where
  date : Date
  tod : ℕ

/-- A well-formed clock reading: a representable date, a time of day below
one day, and at least 30 days after 0001-01-01 (otherwise Python's
`datetime.now() - timedelta(days=MAX_DAYS)` would overflow below
`datetime.min` and raise before the retention loop runs). -/
def ValidNow (now : Now) : Prop :=
  ValidDate now.date ∧ now.tod < microsPerDay ∧ 30 ≤ dayNumber now.date

instance (now : Now) : Decidable (ValidNow now) := by
  unfold ValidNow; infer_instance

/-- Microseconds since 0001-01-01 00:00:00 of the moment of execution. -/
def nowMicros (now : Now) : ℕ := dayNumber now.date * microsPerDay + now.tod

/-- MAX_DAYS = 30, the retention constant of src/history.py. -/
def MAX_DAYS : ℕ := 30

/-- Model of `cutoff_date = datetime.now() - timedelta(days=MAX_DAYS)`
(src/history.py line 365): the full timestamp, time of day included. -/
def cutoffMicros (now : Now) : ℤ :=
  (nowMicros now : ℤ) - MAX_DAYS * microsPerDay

/-- Is the character an ASCII digit (what the `re` patterns of the source
match with a digit class, restricted to ASCII input). -/
def isDig (c : Char) : Bool := decide (48 ≤ c.toNat ∧ c.toNat ≤ 57)

/-- Numeric value of an ASCII digit character. -/
def digVal (c : Char) : ℕ := c.toNat - 48

/-- The ASCII digit character of a value below ten. -/
def digitChar : ℕ → Char
  | 0 => '0' | 1 => '1' | 2 => '2' | 3 => '3' | 4 => '4'
  | 5 => '5' | 6 => '6' | 7 => '7' | 8 => '8' | _ => '9'

/-- Day field of `strptime`: the pattern `3[01]|[12][0-9]|0[1-9]|[1-9]`
followed by the end of the format, with CPython's "unconverted data
remains" check, so exactly one or two digits with value 1..31. -/
def parseDay : List Char → Option ℕ
  | [c1] => if isDig c1 ∧ 1 ≤ digVal c1 then Option.some (digVal c1) else Option.none
  | [c1, c2] =>
    if isDig c1 ∧ isDig c2 ∧ 1 ≤ digVal c1 * 10 + digVal c2 ∧ digVal c1 * 10 + digVal c2 ≤ 31
    then Option.some (digVal c1 * 10 + digVal c2) else Option.none
  | _ => Option.none

/-- Month then `/` then day field of `strptime("%Y/%m/%d")`: month is
`1[0-2]|0[1-9]|[1-9]`, i.e. one or two digits with value 1..12; a one-digit
month is only taken when the next character is the literal `/`. -/
def parseMonthDay : List Char → Option (ℕ × ℕ)
  | c1 :: c2 :: rest =>
    if isDig c1 then
      if c2 = '/' then
        if 1 ≤ digVal c1 then (parseDay rest).map (fun d => (digVal c1, d)) else Option.none
      else
        match rest with
        | s :: rest2 =>
          if isDig c2 ∧ s = '/' ∧ 1 ≤ digVal c1 * 10 + digVal c2 ∧ digVal c1 * 10 + digVal c2 ≤ 12
          then (parseDay rest2).map (fun d => (digVal c1 * 10 + digVal c2, d))
          else Option.none
        | [] => Option.none
    else Option.none
  | _ => Option.none

/-- Model of `datetime.strptime(s, "%Y/%m/%d")` on the characters of `s`:
`%Y` is exactly four digits (CPython `_strptime`), then `/`, month, `/`,
day, end of string; then the `datetime` constructor validates the triple
(year at least 1, day within the month).  `Option.none` is `ValueError`. -/
def parseDateChars : List Char → Option Date
  | c1 :: c2 :: c3 :: c4 :: s1 :: rest =>
    if isDig c1 ∧ isDig c2 ∧ isDig c3 ∧ isDig c4 ∧ s1 = '/' then
      let y := ((digVal c1 * 10 + digVal c2) * 10 + digVal c3) * 10 + digVal c4
      match parseMonthDay rest with
      | Option.some (m, d) =>
        if 1 ≤ y ∧ d ≤ daysInMonth y m then Option.some ⟨y, m, d⟩ else Option.none
      | Option.none => Option.none
    else Option.none
  | _ => Option.none

/-- Model of `datetime.strptime(s, "%Y/%m/%d")`. -/
def parseDate (s : String) : Option Date := parseDateChars s.data

/-- Four-character zero-padded decimal rendering (for `%Y`, years of a
Python `datetime` being at most 9999). -/
def pad4 (n : ℕ) : List Char :=
  [digitChar (n / 1000), digitChar (n / 100 % 10), digitChar (n / 10 % 10), digitChar (n % 10)]

/-- Two-character zero-padded decimal rendering (for `%m` and `%d`). -/
def pad2 (n : ℕ) : List Char := [digitChar (n / 10), digitChar (n % 10)]

/-- Model of `datetime.now().strftime("%Y/%m/%d")` applied to a date. -/
def formatDate (dt : Date) : String :=
  String.mk (pad4 dt.y ++ '/' :: (pad2 dt.m ++ '/' :: pad2 dt.d))

/-- The eight digit characters of `strftime("%Y%m%d")`. -/
def pad8 (dt : Date) : List Char := pad4 dt.y ++ (pad2 dt.m ++ pad2 dt.d)

/-- Model of `datetime.now().strftime("recommend_%Y%m%d.html")`, the
per-day artifact name (src/history.py line 362). -/
def todayFilename (dt : Date) : String :=
  String.mk ("recommend_".data ++ (pad8 dt ++ ".html".data))

/-- State of the persisted history file as seen by the load step:
`Option.none` = file absent; `Option.some Option.none` = file present but
`json.load` raises `JSONDecodeError` (empty or syntactically invalid);
`Option.some (Option.some v)` = file decodes to `v`. -/
def FileState : Type := Option (Option PyVal)

/-- Model of the load step of `update_history` (src/history.py lines
350-359): a missing file and a decode failure both yield the empty list,
and neither error reaches the caller. -/
def loadHistory : FileState → PyVal
  | Option.none => PyVal.list []
  | Option.some Option.none => PyVal.list []
  | Option.some (Option.some v) => v

/-- Model of Python's `for entry in history` over a decoded value: a list
iterates its elements, a dict its keys, a string its characters (as
one-character strings); ints, bools and `None` raise `TypeError`. -/
def pyIter : PyVal → Except PyErr (List PyVal)
  | PyVal.list xs => Except.ok xs
  | PyVal.dict kvs => Except.ok (kvs.map (fun kv => PyVal.str kv.1))
  | PyVal.str s => Except.ok (s.data.map (fun c => PyVal.str (String.mk [c])))
  | _ => Except.error PyErr.typeError

/-- First-match association-list lookup, the model of `entry["date"]` on a
decoded dict (`json.load` keeps one binding per key, so the direction of
the scan is immaterial). -/
def lookupKey (k : String) : List (String × PyVal) → Option PyVal
  | [] => Option.none
  | (k', v) :: rest => if k' = k then Option.some v else lookupKey k rest

/-- Model of `entry["date"]`: `KeyError` on a dict without the key,
`TypeError` on a non-dict. -/
def entryDateVal : PyVal → Except PyErr PyVal
  | PyVal.dict kvs =>
    match lookupKey "date" kvs with
    | Option.some v => Except.ok v
    | Option.none => Except.error PyErr.keyError
  | _ => Except.error PyErr.typeError

/-- Model of `datetime.strptime(v, "%Y/%m/%d")` on an arbitrary decoded
value followed by taking the timestamp of the parsed midnight: `TypeError`
on a non-string, `Except.ok Option.none` for `ValueError` (caught by the
source), otherwise the microsecond timestamp of the parsed date. -/
def strptimeMicros : PyVal → Except PyErr (Option ℕ)
  | PyVal.str s => Except.ok ((parseDate s).map (fun d => dayNumber d * microsPerDay))
  | _ => Except.error PyErr.typeError

/-- The date-timestamp of one history entry, combining the subscript and
the parse (src/history.py line 370). -/
def entryParsedMicros (e : PyVal) : Except PyErr (Option ℕ) :=
  match entryDateVal e with
  | Except.error err => Except.error err
  | Except.ok v => strptimeMicros v

/-- Model of the retention loop of `update_history` (src/history.py lines
367-375): keep an entry exactly when its date parses and the parsed
midnight is not below the cutoff timestamp; a `ValueError` from the parse
skips the entry; `KeyError`/`TypeError` escape the loop. -/
def pruneHistory (cutoff : ℤ) : List PyVal → Except PyErr (List PyVal)
  | [] => Except.ok []
  | e :: rest =>
    match entryParsedMicros e with
    | Except.error err => Except.error err
    | Except.ok Option.none => pruneHistory cutoff rest
    | Except.ok (Option.some dm) =>
      match pruneHistory cutoff rest with
      | Except.error err => Except.error err
      | Except.ok tail =>
        Except.ok (if cutoff ≤ (dm : ℤ) then e :: tail else tail)

/-- Is the value equal (as a Python `==`) to the given string. -/
def eqStr (v : PyVal) (s : String) : Bool :=
  match v with
  | PyVal.str t => t = s
  | _ => false

/-- Model of `[e for e in new_history if e["date"] != today]`
(src/history.py line 388). -/
def dedupeToday (today : String) : List PyVal → Except PyErr (List PyVal)
  | [] => Except.ok []
  | e :: rest =>
    match entryDateVal e with
    | Except.error err => Except.error err
    | Except.ok v =>
      match dedupeToday today rest with
      | Except.error err => Except.error err
      | Except.ok tail =>
        Except.ok (if eqStr v today then tail else e :: tail)

/-- One step of sampling without replacement: remove the element at the
position selected by the random draw; recurse `k` times or until the pool
is exhausted.  This is the specification-level behaviour of CPython's
`random.sample`, parametric in the random draws. -/
def randomSample {α : Type} (rand : ℕ → ℕ) : List α → ℕ → ℕ → List α
  | _, 0, _ => []
  | avail, Nat.succ k, step =>
    if h : 0 < avail.length then
      let i : ℕ := rand step % avail.length
      avail.get ⟨i, Nat.mod_lt _ h⟩ :: randomSample rand (avail.eraseIdx i) k (step + 1)
    else []

/-- Model of the sampling step of `update_history` (src/history.py lines
378-379): `num_to_sample = min(target_count, len(new_items))`;
`random.sample(new_items, num_to_sample) if num_to_sample > 0 else []`. -/
def sampleStep (rand : ℕ → ℕ) (new_items : List PyVal) (target : ℕ) : List PyVal :=
  let num := min target new_items.length
  if 0 < num then randomSample rand new_items num 0 else []

/-- The `today_entry` dict built by `update_history` (src/history.py lines
381-385). -/
def mkTodayEntry (dt : Date) (items : List PyVal) : PyVal :=
  PyVal.dict [("date", PyVal.str (formatDate dt)),
              ("filename", PyVal.str (todayFilename dt)),
              ("items", PyVal.list items)]

/-- Model of `update_history` (src/history.py lines 346-396): load the
history file tolerantly, prune entries older than `now - 30 days`, sample
today's items, drop any surviving entry dated today, insert the new entry
at the front, save, and return today's items.  The pair returned on
success is (the record list written to the file, the returned items); an
`Except.error` is an uncaught Python exception, in which case nothing is
saved. -/
def update_history (new_items : List PyVal) (target_count : ℕ) (now : Now)
    (rand : ℕ → ℕ) (file : FileState) : Except PyErr (List PyVal × List PyVal) :=
  let history := loadHistory file
  let today := formatDate now.date
  match pyIter history with
  | Except.error err => Except.error err
  | Except.ok entries =>
    match pruneHistory (cutoffMicros now) entries with
    | Except.error err => Except.error err
    | Except.ok kept =>
      let display := sampleStep rand new_items target_count
      let todayEntry := mkTodayEntry now.date display
      match dedupeToday today kept with
      | Except.error err => Except.error err
      | Except.ok deduped => Except.ok (todayEntry :: deduped, display)

/-- Model of the `update_history` of the generate_data-era section
(src/history.py lines 127-180).  Its body is line-for-line the code of the
later copy; the two differ only in where the history file lives on disk
("history.json" in the working directory versus joined to SCRIPT_DIR),
which is outside this state model: the file is passed as a value. -/
def update_history_v1 (new_items : List PyVal) (target_count : ℕ) (now : Now)
    (rand : ℕ → ℕ) (file : FileState) : Except PyErr (List PyVal × List PyVal) :=
  let history := loadHistory file
  let today := formatDate now.date
  match pyIter history with
  | Except.error err => Except.error err
  | Except.ok entries =>
    match pruneHistory (cutoffMicros now) entries with
    | Except.error err => Except.error err
    | Except.ok kept =>
      let display := sampleStep rand new_items target_count
      let todayEntry := mkTodayEntry now.date display
      match dedupeToday today kept with
      | Except.error err => Except.error err
      | Except.ok deduped => Except.ok (todayEntry :: deduped, display)

/-- Strip a literal off the front of a character list (the way a literal
piece of a regular expression consumes input). -/
def stripLit : List Char → List Char → Option (List Char)
  | [], cs => Option.some cs
  | _ :: _, [] => Option.none
  | p :: ps, c :: cs => if c = p then stripLit ps cs else Option.none

/-- Model of `re.compile(r'recommend_(\d{8})\.html').match(filename)`
(src/history.py lines 404, 410): `re.match` anchors at the start of the
string only, so any filename beginning with `recommend_`, eight digits and
`.html` matches, whatever follows; the result is the captured digit
group. -/
def matchDate8 (f : String) : Option (List Char) :=
  match stripLit "recommend_".data f.data with
  | Option.none => Option.none
  | Option.some r =>
    let ds := r.take 8
    if ds.length = 8 ∧ ds.all isDig then
      match stripLit ".html".data (r.drop 8) with
      | Option.some _ => Option.some ds
      | Option.none => Option.none
    else Option.none

/-- Model of `datetime.strptime(date_str, "%Y%m%d")` on the captured
eight-digit group: with exactly eight digits the only split is four-digit
year, two-digit month (01..12) and two-digit day (01..31), then the
`datetime` constructor validates; `Option.none` is `ValueError`. -/
def parseDate8 (ds : List Char) : Option Date :=
  match ds with
  | [c1, c2, c3, c4, c5, c6, c7, c8] =>
    let y := ((digVal c1 * 10 + digVal c2) * 10 + digVal c3) * 10 + digVal c4
    let m := digVal c5 * 10 + digVal c6
    let d := digVal c7 * 10 + digVal c8
    if 1 ≤ y ∧ 1 ≤ m ∧ m ≤ 12 ∧ 1 ≤ d ∧ d ≤ daysInMonth y m
    then Option.some ⟨y, m, d⟩ else Option.none
  | _ => Option.none

/-- Does `cleanup_old_html_files` delete this filename (src/history.py
lines 409-424): the name matches the anchored pattern, the captured date
parses, and the parsed midnight is strictly below `now - 30 days`; a
`ValueError` from the parse skips the file. -/
def shouldDelete (now : Now) (f : String) : Bool :=
  match matchDate8 f with
  | Option.none => false
  | Option.some ds =>
    match parseDate8 ds with
    | Option.none => false
    | Option.some d => decide ((dayNumber d * microsPerDay : ℤ) < cutoffMicros now)

/-- Model of `cleanup_old_html_files` (src/history.py lines 401-429) on a
directory listing: the sublist of filenames it deletes.  The function is
total: no input raises. -/
def cleanup_old_html_files (now : Now) (files : List String) : List String :=
  files.filter (shouldDelete now)

/-- Does an entry carry exactly this date string (used to count the
records of one calendar day in a log). -/
def isTodayRecord (today : String) (e : PyVal) : Bool :=
  match entryDateVal e with
  | Except.ok v => eqStr v today
  | Except.error _ => false

theorem isDig_digitChar (n : ℕ) : isDig (digitChar n) = true := by
  rcases n with _|_|_|_|_|_|_|_|_|n <;> rfl

theorem digitChar_ne_slash (n : ℕ) : digitChar n ≠ '/' := by
  intro h
  have hd := isDig_digitChar n
  rw [h] at hd
  exact absurd hd (by decide)

theorem digVal_digitChar {n : ℕ} (h : n < 10) : digVal (digitChar n) = n := by
  interval_cases n <;> rfl

theorem daysInMonth_le_31 (y m : ℕ) : daysInMonth y m ≤ 31 := by
  unfold daysInMonth
  split
  · split <;> omega
  · split <;> omega

theorem daysInMonth_pos (y m : ℕ) : 1 ≤ daysInMonth y m := by
  unfold daysInMonth
  split
  · split <;> omega
  · split <;> omega

theorem parseDate_formatDate {dt : Date} (h : ValidDate dt) :
    parseDate (formatDate dt) = Option.some dt := by
  obtain ⟨y, m, d⟩ := dt
  obtain ⟨hy1, hy2, hm1, hm2, hd1, hd2⟩ := h
  dsimp only at hy1 hy2 hm1 hm2 hd1 hd2
  have hd31 : d ≤ 31 := le_trans hd2 (daysInMonth_le_31 y m)
  have dy1 : digVal (digitChar (y / 1000)) = y / 1000 := digVal_digitChar (by omega)
  have dy2 : digVal (digitChar (y / 100 % 10)) = y / 100 % 10 := digVal_digitChar (by omega)
  have dy3 : digVal (digitChar (y / 10 % 10)) = y / 10 % 10 := digVal_digitChar (by omega)
  have dy4 : digVal (digitChar (y % 10)) = y % 10 := digVal_digitChar (by omega)
  have dm1 : digVal (digitChar (m / 10)) = m / 10 := digVal_digitChar (by omega)
  have dm2 : digVal (digitChar (m % 10)) = m % 10 := digVal_digitChar (by omega)
  have dd1 : digVal (digitChar (d / 10)) = d / 10 := digVal_digitChar (by omega)
  have dd2 : digVal (digitChar (d % 10)) = d % 10 := digVal_digitChar (by omega)
  have ey : ((y / 1000 * 10 + y / 100 % 10) * 10 + y / 10 % 10) * 10 + y % 10 = y := by omega
  have em : m / 10 * 10 + m % 10 = m := by omega
  have ed : d / 10 * 10 + d % 10 = d := by omega
  have e1 : parseDate (formatDate ⟨y, m, d⟩) = parseDateChars
      (digitChar (y / 1000) :: digitChar (y / 100 % 10) :: digitChar (y / 10 % 10) ::
        digitChar (y % 10) :: '/' ::
        (digitChar (m / 10) :: digitChar (m % 10) :: '/' ::
          (digitChar (d / 10) :: [digitChar (d % 10)]))) := rfl
  rw [e1]
  rw [parseDateChars]
  rw [if_pos ⟨isDig_digitChar _, isDig_digitChar _, isDig_digitChar _, isDig_digitChar _, rfl⟩]
  rw [dy1, dy2, dy3, dy4, ey]
  rw [parseMonthDay]
  rw [if_pos (isDig_digitChar _), if_neg (digitChar_ne_slash (m % 10))]
  dsimp only
  rw [dm1, dm2, em]
  rw [if_pos ⟨isDig_digitChar _, rfl, hm1, hm2⟩]
  rw [parseDay]
  rw [dd1, dd2, ed]
  rw [if_pos ⟨isDig_digitChar _, isDig_digitChar _, hd1, hd31⟩]
  dsimp only [Option.map_some']
  rw [if_pos ⟨hy1, hd2⟩]

theorem parseDate8_pad8 {dt : Date} (h : ValidDate dt) :
    parseDate8 (pad8 dt) = Option.some dt := by
  obtain ⟨y, m, d⟩ := dt
  obtain ⟨hy1, hy2, hm1, hm2, hd1, hd2⟩ := h
  dsimp only at hy1 hy2 hm1 hm2 hd1 hd2
  have hd31 : d ≤ 31 := le_trans hd2 (daysInMonth_le_31 y m)
  have dy1 : digVal (digitChar (y / 1000)) = y / 1000 := digVal_digitChar (by omega)
  have dy2 : digVal (digitChar (y / 100 % 10)) = y / 100 % 10 := digVal_digitChar (by omega)
  have dy3 : digVal (digitChar (y / 10 % 10)) = y / 10 % 10 := digVal_digitChar (by omega)
  have dy4 : digVal (digitChar (y % 10)) = y % 10 := digVal_digitChar (by omega)
  have dm1 : digVal (digitChar (m / 10)) = m / 10 := digVal_digitChar (by omega)
  have dm2 : digVal (digitChar (m % 10)) = m % 10 := digVal_digitChar (by omega)
  have dd1 : digVal (digitChar (d / 10)) = d / 10 := digVal_digitChar (by omega)
  have dd2 : digVal (digitChar (d % 10)) = d % 10 := digVal_digitChar (by omega)
  have ey : ((y / 1000 * 10 + y / 100 % 10) * 10 + y / 10 % 10) * 10 + y % 10 = y := by omega
  have em : m / 10 * 10 + m % 10 = m := by omega
  have ed : d / 10 * 10 + d % 10 = d := by omega
  have e1 : parseDate8 (pad8 ⟨y, m, d⟩) = parseDate8
      [digitChar (y / 1000), digitChar (y / 100 % 10), digitChar (y / 10 % 10),
       digitChar (y % 10), digitChar (m / 10), digitChar (m % 10),
       digitChar (d / 10), digitChar (d % 10)] := rfl
  rw [e1, parseDate8]
  rw [dy1, dy2, dy3, dy4, dm1, dm2, dd1, dd2, ey, em, ed]
  rw [if_pos ⟨hy1, hm1, hm2, hd1, hd2⟩]

theorem formatDate_inj {a b : Date} (ha : ValidDate a) (hb : ValidDate b)
    (h : formatDate a = formatDate b) : a = b := by
  have h1 := parseDate_formatDate ha
  rw [h, parseDate_formatDate hb] at h1
  exact (Option.some.inj h1).symm

theorem pad8_length (dt : Date) : (pad8 dt).length = 8 := rfl

theorem pad8_all_isDig (dt : Date) : (pad8 dt).all isDig = true := by
  obtain ⟨y, m, d⟩ := dt
  simp only [pad8, pad4, pad2]
  simp [isDig_digitChar]

theorem stripLit_eq_some {p cs r : List Char} :
    stripLit p cs = Option.some r ↔ cs = p ++ r := by
  induction p generalizing cs with
  | nil => simp [stripLit]
  | cons a ps ih =>
    cases cs with
    | nil => simp [stripLit]
    | cons c cs' =>
      rw [stripLit]
      by_cases hca : c = a
      · subst hca
        rw [if_pos rfl, ih]
        simp
      · rw [if_neg hca]
        simp [hca]

theorem take_len_append {α : Type} (l₁ l₂ : List α) : (l₁ ++ l₂).take l₁.length = l₁ := by
  induction l₁ with
  | nil => rfl
  | cons a l ih => simp [ih]

theorem drop_len_append {α : Type} (l₁ l₂ : List α) : (l₁ ++ l₂).drop l₁.length = l₂ := by
  induction l₁ with
  | nil => rfl
  | cons a l ih => simp [ih]

theorem matchDate8_eq_some {f : String} {ds : List Char} :
    matchDate8 f = Option.some ds ↔
      ds.length = 8 ∧ ds.all isDig = true ∧
        ∃ rest, f.data = "recommend_".data ++ (ds ++ (".html".data ++ rest)) := by
  unfold matchDate8
  cases hs : stripLit "recommend_".data f.data with
  | none =>
    simp only []
    constructor
    · intro h; cases h
    · rintro ⟨hlen, hdig, rest, hdec⟩
      rw [(stripLit_eq_some).mpr hdec] at hs
      cases hs
  | some r =>
    have hr : f.data = "recommend_".data ++ r := stripLit_eq_some.mp hs
    simp only []
    by_cases hcond : (r.take 8).length = 8 ∧ (r.take 8).all isDig
    · rw [if_pos hcond]
      cases hh : stripLit ".html".data (r.drop 8) with
      | none =>
        constructor
        · intro h; cases h
        · rintro ⟨hlen, hdig, rest, hdec⟩
          rw [hr] at hdec
          have hrds : r = ds ++ (".html".data ++ rest) := by
            exact List.append_cancel_left hdec
          have hdrop : r.drop 8 = ".html".data ++ rest := by
            rw [hrds, ← hlen, drop_len_append]
          rw [(stripLit_eq_some).mpr hdrop] at hh
          cases hh
      | some rest0 =>
        have hdrop : r.drop 8 = ".html".data ++ rest0 := stripLit_eq_some.mp hh
        constructor
        · intro h
          have hds : ds = r.take 8 := (Option.some.inj h).symm
          refine ⟨by rw [hds]; exact hcond.1, by rw [hds]; exact hcond.2, rest0, ?_⟩
          rw [hr, hds, ← hdrop]
          rw [List.take_append_drop]
        · rintro ⟨hlen, hdig, rest, hdec⟩
          rw [hr] at hdec
          have hrds : r = ds ++ (".html".data ++ rest) := List.append_cancel_left hdec
          have : r.take 8 = ds := by
            rw [hrds, ← hlen, take_len_append]
          rw [this]
    · rw [if_neg hcond]
      constructor
      · intro h; cases h
      · rintro ⟨hlen, hdig, rest, hdec⟩
        rw [hr] at hdec
        have hrds : r = ds ++ (".html".data ++ rest) := List.append_cancel_left hdec
        have ht : r.take 8 = ds := by rw [hrds, ← hlen, take_len_append]
        exact absurd ⟨by rw [ht]; exact hlen, by rw [ht]; exact hdig⟩ hcond

theorem pruneHistory_sublist {c : ℤ} {l l' : List PyVal}
    (h : pruneHistory c l = Except.ok l') : List.Sublist l' l := by
  induction l generalizing l' with
  | nil =>
    rw [pruneHistory] at h
    obtain rfl : ([] : List PyVal) = l' := by injection h
    exact List.nil_sublist _
  | cons e rest ih =>
    rw [pruneHistory] at h
    cases he : entryParsedMicros e with
    | error err => rw [he] at h; cases h
    | ok o =>
      rw [he] at h
      cases o with
      | none => exact (ih h).cons e
      | some dm =>
        cases hr : pruneHistory c rest with
        | error err => rw [hr] at h; cases h
        | ok tail =>
          rw [hr] at h
          dsimp only at h
          by_cases hc : c ≤ (dm : ℤ)
          · rw [if_pos hc] at h
            obtain rfl : e :: tail = l' := by injection h
            exact (ih hr).cons₂ e
          · rw [if_neg hc] at h
            obtain rfl : tail = l' := by injection h
            exact (ih hr).cons e

theorem pruneHistory_mem {c : ℤ} {l l' : List PyVal}
    (h : pruneHistory c l = Except.ok l') {e : PyVal} (hm : e ∈ l') :
    ∃ dm : ℕ, entryParsedMicros e = Except.ok (Option.some dm) ∧ c ≤ (dm : ℤ) := by
  induction l generalizing l' with
  | nil =>
    rw [pruneHistory] at h
    obtain rfl : ([] : List PyVal) = l' := by injection h
    cases hm
  | cons e0 rest ih =>
    rw [pruneHistory] at h
    cases he : entryParsedMicros e0 with
    | error err => rw [he] at h; cases h
    | ok o =>
      rw [he] at h
      cases o with
      | none => exact ih h hm
      | some dm =>
        cases hr : pruneHistory c rest with
        | error err => rw [hr] at h; cases h
        | ok tail =>
          rw [hr] at h
          dsimp only at h
          by_cases hc : c ≤ (dm : ℤ)
          · rw [if_pos hc] at h
            obtain rfl : e0 :: tail = l' := by injection h
            rcases hm with _ | hm'
            · exact ⟨dm, he, hc⟩
            · exact ih hr (by assumption)
          · rw [if_neg hc] at h
            obtain rfl : tail = l' := by injection h
            exact ih hr hm

theorem pruneHistory_ok {c : ℤ} {l : List PyVal}
    (h : ∀ e ∈ l, ∃ o, entryParsedMicros e = Except.ok o) :
    ∃ l', pruneHistory c l = Except.ok l' := by
  induction l with
  | nil => exact ⟨[], rfl⟩
  | cons e rest ih =>
    obtain ⟨o, ho⟩ := h e (List.mem_cons_self e rest)
    obtain ⟨tail, htail⟩ := ih (fun x hx => h x (List.mem_cons_of_mem e hx))
    rw [pruneHistory, ho, htail]
    cases o with
    | none => exact ⟨tail, rfl⟩
    | some dm =>
      by_cases hc : c ≤ (dm : ℤ)
      · exact ⟨e :: tail, by dsimp only; rw [if_pos hc]⟩
      · exact ⟨tail, by dsimp only; rw [if_neg hc]⟩

theorem dedupeToday_sublist {t : String} {l l' : List PyVal}
    (h : dedupeToday t l = Except.ok l') : List.Sublist l' l := by
  induction l generalizing l' with
  | nil =>
    rw [dedupeToday] at h
    obtain rfl : ([] : List PyVal) = l' := by injection h
    exact List.nil_sublist _
  | cons e rest ih =>
    rw [dedupeToday] at h
    cases he : entryDateVal e with
    | error err => rw [he] at h; cases h
    | ok v =>
      rw [he] at h
      cases hr : dedupeToday t rest with
      | error err => rw [hr] at h; cases h
      | ok tail =>
        rw [hr] at h
        dsimp only at h
        by_cases hv : eqStr v t = true
        · rw [if_pos hv] at h
          obtain rfl : tail = l' := by injection h
          exact (ih hr).cons e
        · rw [if_neg hv] at h
          obtain rfl : e :: tail = l' := by injection h
          exact (ih hr).cons₂ e

theorem dedupeToday_not_today {t : String} {l l' : List PyVal}
    (h : dedupeToday t l = Except.ok l') {e : PyVal} (hm : e ∈ l') :
    isTodayRecord t e = false := by
  induction l generalizing l' with
  | nil =>
    rw [dedupeToday] at h
    obtain rfl : ([] : List PyVal) = l' := by injection h
    cases hm
  | cons e0 rest ih =>
    rw [dedupeToday] at h
    cases he : entryDateVal e0 with
    | error err => rw [he] at h; cases h
    | ok v =>
      rw [he] at h
      cases hr : dedupeToday t rest with
      | error err => rw [hr] at h; cases h
      | ok tail =>
        rw [hr] at h
        dsimp only at h
        by_cases hv : eqStr v t = true
        · rw [if_pos hv] at h
          obtain rfl : tail = l' := by injection h
          exact ih hr hm
        · rw [if_neg hv] at h
          obtain rfl : e0 :: tail = l' := by injection h
          rcases hm with _ | hm'
          · rw [isTodayRecord, he]
            exact Bool.eq_false_iff.mpr hv
          · exact ih hr (by assumption)

theorem dedupeToday_ok {t : String} {l : List PyVal}
    (h : ∀ e ∈ l, ∃ v, entryDateVal e = Except.ok v) :
    ∃ l', dedupeToday t l = Except.ok l' := by
  induction l with
  | nil => exact ⟨[], rfl⟩
  | cons e rest ih =>
    obtain ⟨v, hv⟩ := h e (List.mem_cons_self e rest)
    obtain ⟨tail, htail⟩ := ih (fun x hx => h x (List.mem_cons_of_mem e hx))
    rw [dedupeToday, hv, htail]
    by_cases hc : eqStr v t = true
    · exact ⟨tail, by dsimp only; rw [if_pos hc]⟩
    · exact ⟨e :: tail, by dsimp only; rw [if_neg hc]⟩

theorem update_history_ok_inv {items : List PyVal} {target : ℕ} {now : Now}
    {rand : ℕ → ℕ} {file : FileState} {log disp : List PyVal}
    (h : update_history items target now rand file = Except.ok (log, disp)) :
    disp = sampleStep rand items target ∧
      ∃ entries kept deduped,
        pyIter (loadHistory file) = Except.ok entries ∧
        pruneHistory (cutoffMicros now) entries = Except.ok kept ∧
        dedupeToday (formatDate now.date) kept = Except.ok deduped ∧
        log = mkTodayEntry now.date disp :: deduped := by
  simp only [update_history] at h
  split at h
  next err heq => cases h
  next entries heq =>
    split at h
    next err heq2 => cases h
    next kept heq2 =>
      split at h
      next err heq3 => cases h
      next deduped heq3 =>
        injection h with h
        injection h with h1 h2
        exact ⟨h2.symm, entries, kept, deduped, heq, heq2, heq3, by rw [← h1, ← h2]⟩

theorem get_cons_eraseIdx_perm {α : Type} :
    ∀ (l : List α) (i : Fin l.length), List.Perm (l.get i :: l.eraseIdx i) l := by
  intro l
  induction l with
  | nil => intro i; exact absurd i.2 (by simp)
  | cons a l ih =>
    intro i
    rcases i with ⟨iv, hv⟩
    cases iv with
    | zero => exact List.Perm.refl _
    | succ j =>
      have hj : j < l.length := by simpa using hv
      have step1 : List.Perm (l.get ⟨j, hj⟩ :: a :: l.eraseIdx j)
          (a :: l.get ⟨j, hj⟩ :: l.eraseIdx j) := List.Perm.swap a _ _
      exact step1.trans ((ih ⟨j, hj⟩).cons a)

theorem randomSample_length {α : Type} (rand : ℕ → ℕ) :
    ∀ (k : ℕ) (avail : List α) (step : ℕ),
      (randomSample rand avail k step).length = min k avail.length := by
  intro k
  induction k with
  | zero => intro avail step; simp [randomSample]
  | succ k ih =>
    intro avail step
    rw [randomSample]
    by_cases h : 0 < avail.length
    · rw [dif_pos h]
      simp only [List.length_cons]
      rw [ih]
      have hlen : (avail.eraseIdx (rand step % avail.length)).length + 1 = avail.length :=
        List.length_eraseIdx_add_one (Nat.mod_lt _ h)
      omega
    · rw [dif_neg h]
      have h0 : avail.length = 0 := by omega
      simp [h0]

theorem randomSample_subperm {α : Type} (rand : ℕ → ℕ) :
    ∀ (k : ℕ) (avail : List α) (step : ℕ),
      List.Subperm (randomSample rand avail k step) avail := by
  intro k
  induction k with
  | zero => intro avail step; rw [randomSample]; exact List.nil_subperm
  | succ k ih =>
    intro avail step
    rw [randomSample]
    by_cases h : 0 < avail.length
    · rw [dif_pos h]
      have h1 : List.Subperm
          (avail.get ⟨rand step % avail.length, Nat.mod_lt _ h⟩ ::
            randomSample rand (avail.eraseIdx (rand step % avail.length)) k (step + 1))
          (avail.get ⟨rand step % avail.length, Nat.mod_lt _ h⟩ ::
            avail.eraseIdx (rand step % avail.length)) :=
        (List.subperm_cons _).mpr (ih _ _)
      exact h1.trans (get_cons_eraseIdx_perm avail _).subperm
    · rw [dif_neg h]
      exact List.nil_subperm

theorem sampleStep_length (rand : ℕ → ℕ) (pool : List PyVal) (target : ℕ) :
    (sampleStep rand pool target).length = min target pool.length := by
  unfold sampleStep
  by_cases h : 0 < min target pool.length
  · rw [if_pos h, randomSample_length]
    omega
  · rw [if_neg h]
    simp only [List.length_nil]
    omega

theorem sampleStep_subperm (rand : ℕ → ℕ) (pool : List PyVal) (target : ℕ) :
    List.Subperm (sampleStep rand pool target) pool := by
  unfold sampleStep
  by_cases h : 0 < min target pool.length
  · rw [if_pos h]
    exact randomSample_subperm rand _ pool 0
  · rw [if_neg h]
    exact List.nil_subperm

/-- The property claim C1 asserts of each saved record: its date field is a
string that parses, and the parsed midnight is not below the cutoff
timestamp `now - 30 days`. -/
def RecordWithinWindow (now : Now) (e : PyVal) : Prop :=
  ∃ s d, entryDateVal e = Except.ok (PyVal.str s) ∧ parseDate s = Option.some d ∧
    cutoffMicros now ≤ (dayNumber d * microsPerDay : ℤ)

theorem entryParsedMicros_ok_some {e : PyVal} {dm : ℕ}
    (h : entryParsedMicros e = Except.ok (Option.some dm)) :
    ∃ s d, entryDateVal e = Except.ok (PyVal.str s) ∧ parseDate s = Option.some d ∧
      dm = dayNumber d * microsPerDay := by
  unfold entryParsedMicros at h
  cases hv : entryDateVal e with
  | error err => rw [hv] at h; cases h
  | ok v =>
    rw [hv] at h
    cases v with
    | str s =>
      simp only [strptimeMicros] at h
      injection h with h
      cases hp : parseDate s with
      | none => rw [hp] at h; simp at h
      | some d =>
        rw [hp] at h
        simp only [Option.map_some'] at h
        injection h with h
        exact ⟨s, d, rfl, hp, h.symm⟩
    | int n => simp [strptimeMicros] at h
    | bool b => simp [strptimeMicros] at h
    | null => simp [strptimeMicros] at h
    | list xs => simp [strptimeMicros] at h
    | dict kvs => simp [strptimeMicros] at h

theorem entryDateVal_mkTodayEntry (dt : Date) (items : List PyVal) :
    entryDateVal (mkTodayEntry dt items) = Except.ok (PyVal.str (formatDate dt)) := rfl

/-- Claim C1: for every loaded history log and every fresh item list, after
one successful Retention Policy pass (update_history), every record in the
saved log has a parsable date that is not older than the cutoff of 30 days
before the moment of execution; no record older than the cutoff
survives. -/
theorem claim_C1_retention_bound {items : List PyVal} {target : ℕ} {now : Now}
    {rand : ℕ → ℕ} {file : FileState} {log disp : List PyVal}
    (hval : ValidNow now)
    (h : update_history items target now rand file = Except.ok (log, disp)) :
    ∀ e ∈ log, RecordWithinWindow now e := by
  obtain ⟨hdisp, entries, kept, deduped, hi, hp, hd, hlog⟩ := update_history_ok_inv h
  intro e he
  rw [hlog] at he
  rcases he with _ | he'
  · refine ⟨formatDate now.date, now.date, entryDateVal_mkTodayEntry _ _,
      parseDate_formatDate hval.1, ?_⟩
    have h1 : now.tod < microsPerDay := hval.2.1
    simp only [cutoffMicros, nowMicros, MAX_DAYS, microsPerDay] at *
    push_cast
    omega
  · have hmem : e ∈ kept := (dedupeToday_sublist hd).subset (by assumption)
    obtain ⟨dm, hdm, hc⟩ := pruneHistory_mem hp hmem
    obtain ⟨s, d, hsv, hpd, hdm'⟩ := entryParsedMicros_ok_some hdm
    refine ⟨s, d, hsv, hpd, ?_⟩
    have hcast : ((dm : ℕ) : ℤ) = (dayNumber d : ℤ) * (microsPerDay : ℤ) := by
      rw [hdm']; push_cast; ring
    rw [← hcast]
    exact hc

/-- Witness for claim C1 at a concrete run: 2025-10-12 at midnight, empty
pool, missing history file; the single saved record satisfies the window
property. -/
theorem claim_C1_retention_bound_witness :
    RecordWithinWindow ⟨⟨2025, 10, 12⟩, 0⟩ (mkTodayEntry ⟨2025, 10, 12⟩ []) :=
  @claim_C1_retention_bound [] 5 ⟨⟨2025, 10, 12⟩, 0⟩ (fun _ => 0) Option.none
    [mkTodayEntry ⟨2025, 10, 12⟩ []] [] (by decide) rfl
    (mkTodayEntry ⟨2025, 10, 12⟩ []) (List.mem_singleton.mpr rfl)

/-- Claim C3: loading the history file when it does not exist, or when
json.load fails with JSONDecodeError (which is what happens both for an
empty file and for syntactically invalid JSON), yields an empty log in
all cases and raises nothing: the whole pass succeeds exactly as if the
log had been empty, saving only today's record. -/
theorem claim_C3_corrupt_tolerant_load (items : List PyVal) (target : ℕ) (now : Now)
    (rand : ℕ → ℕ) :
    update_history items target now rand Option.none
        = Except.ok ([mkTodayEntry now.date (sampleStep rand items target)],
            sampleStep rand items target) ∧
    update_history items target now rand (Option.some Option.none)
        = Except.ok ([mkTodayEntry now.date (sampleStep rand items target)],
            sampleStep rand items target) ∧
    loadHistory Option.none = PyVal.list [] ∧
    loadHistory (Option.some Option.none) = PyVal.list [] := by
  exact ⟨rfl, rfl, rfl, rfl⟩

/-- Claim C6: after a successful update_history on a decoded list of
entries, the new record is at index 0 of the saved log, and the remaining
records are a sublist of the input entries: the prune and dedupe filters
preserve relative order and nothing is re-sorted. -/
theorem claim_C6_order_invariant {items : List PyVal} {target : ℕ} {now : Now}
    {rand : ℕ → ℕ} {entries log disp : List PyVal}
    (h : update_history items target now rand
        (Option.some (Option.some (PyVal.list entries))) = Except.ok (log, disp)) :
    log.head? = Option.some (mkTodayEntry now.date disp) ∧ List.Sublist log.tail entries := by
  obtain ⟨hdisp, entries0, kept, deduped, hi, hp, hd, hlog⟩ := update_history_ok_inv h
  have hent : entries = entries0 := by injection hi
  subst hent
  rw [hlog]
  exact ⟨rfl, (dedupeToday_sublist hd).trans (pruneHistory_sublist hp)⟩

/-- Witness for claim C6 at a concrete run: one stale record from 2020 in
the file; the saved log is today's entry followed by nothing, whose tail
is a sublist of the input. -/
theorem claim_C6_order_invariant_witness :
    ([mkTodayEntry ⟨2025, 10, 12⟩ []] : List PyVal).head?
        = Option.some (mkTodayEntry ⟨2025, 10, 12⟩ []) ∧
    List.Sublist ([mkTodayEntry ⟨2025, 10, 12⟩ []] : List PyVal).tail
      [PyVal.dict [("date", PyVal.str "2020/01/01")]] :=
  @claim_C6_order_invariant [] 5 ⟨⟨2025, 10, 12⟩, 0⟩ (fun _ => 0)
    [PyVal.dict [("date", PyVal.str "2020/01/01")]]
    [mkTodayEntry ⟨2025, 10, 12⟩ []] [] rfl

/-- Claim C10: the generate_data-era copy of update_history (lines
127-180) and the later copy (lines 346-396) are extensionally equal on
every input: same pruned and deduplicated log, same saved record list,
same returned items.  Their bodies are line-for-line identical; the only
difference between the two source functions is the directory in which
"history.json" is resolved, which lies outside the value model. -/
theorem claim_C10_copies_equal (new_items : List PyVal) (target_count : ℕ) (now : Now)
    (rand : ℕ → ℕ) (file : FileState) :
    update_history_v1 new_items target_count now rand file
      = update_history new_items target_count now rand file := rfl

/-- One scripted call of update_history within a day: the fresh pool, the
target count, the time of day of the call, and its random draws. -/
structure Run where
  items : List PyVal
  target : ℕ
  tod : ℕ
  rand : ℕ → ℕ

/-- N consecutive update_history calls on the same calendar day: each call
saves its record list, which the next call loads back (a saved list decodes
to itself).  The empty call sequence is not a run and is mapped to an
error value. -/
def runsChain (d : Date) (file : FileState) : List Run → Except PyErr (List PyVal × List PyVal)
  | [] => Except.error PyErr.valueError
  | [r] => update_history r.items r.target ⟨d, r.tod⟩ r.rand file
  | r :: r2 :: rs =>
    match update_history r.items r.target ⟨d, r.tod⟩ r.rand file with
    | Except.error err => Except.error err
    | Except.ok (log, _) =>
      runsChain d (Option.some (Option.some (PyVal.list log))) (r2 :: rs)

theorem update_history_single_day {items : List PyVal} {target : ℕ} {now : Now}
    {rand : ℕ → ℕ} {file : FileState} {log disp : List PyVal}
    (h : update_history items target now rand file = Except.ok (log, disp)) :
    log.head? = Option.some (mkTodayEntry now.date disp) ∧
    (log.filter (isTodayRecord (formatDate now.date))).length = 1 ∧
    disp = sampleStep rand items target := by
  obtain ⟨hdisp, entries, kept, deduped, hi, hp, hd, hlog⟩ := update_history_ok_inv h
  subst hlog
  refine ⟨rfl, ?_, hdisp⟩
  have h1 : isTodayRecord (formatDate now.date) (mkTodayEntry now.date disp) = true := by
    rw [isTodayRecord, entryDateVal_mkTodayEntry]
    simp [eqStr]
  have h2 : List.filter (isTodayRecord (formatDate now.date)) deduped = [] :=
    List.filter_eq_nil_iff.mpr (fun a ha => by rw [dedupeToday_not_today hd ha]; simp)
  rw [List.filter_cons, if_pos h1, h2]
  rfl

/-- Claim C2: for every sequence of N calls to update_history on the same
calendar day, the resulting saved log contains exactly one record whose
date equals that day, its items are those sampled by the last call (whose
returned display list is the overall result), and the record sits at the
head; any pre-existing record for the day is replaced. -/
theorem claim_C2_single_per_day {d : Date} {file : FileState} {runs : List Run}
    {log disp : List PyVal}
    (h : runsChain d file runs = Except.ok (log, disp)) :
    (runs.getLast?).map (fun r => sampleStep r.rand r.items r.target) = Option.some disp ∧
    log.head? = Option.some (mkTodayEntry d disp) ∧
    (log.filter (isTodayRecord (formatDate d))).length = 1 := by
  induction runs generalizing file with
  | nil => cases h
  | cons r rs ih =>
    cases rs with
    | nil =>
      rw [runsChain] at h
      obtain ⟨hh, hc, hdisp⟩ := update_history_single_day h
      exact ⟨by rw [hdisp]; rfl, hh, hc⟩
    | cons r2 rs2 =>
      rw [runsChain] at h
      cases hu : update_history r.items r.target ⟨d, r.tod⟩ r.rand file with
      | error err => rw [hu] at h; cases h
      | ok p =>
        obtain ⟨plog, pdisp⟩ := p
        rw [hu] at h
        dsimp only at h
        obtain ⟨ha, hb, hc⟩ := ih h
        exact ⟨by rw [List.getLast?_cons_cons]; exact ha, hb, hc⟩

/-- Witness for claim C2 at a concrete chain: a single run on 2025-10-12
with an empty pool and a missing file. -/
theorem claim_C2_single_per_day_witness :
    (([⟨[], 5, 0, fun _ => 0⟩] : List Run).getLast?).map
        (fun r => sampleStep r.rand r.items r.target) = Option.some [] ∧
    ([mkTodayEntry ⟨2025, 10, 12⟩ []] : List PyVal).head?
        = Option.some (mkTodayEntry ⟨2025, 10, 12⟩ []) ∧
    (([mkTodayEntry ⟨2025, 10, 12⟩ []] : List PyVal).filter
        (isTodayRecord (formatDate ⟨2025, 10, 12⟩))).length = 1 :=
  @claim_C2_single_per_day ⟨2025, 10, 12⟩ Option.none [⟨[], 5, 0, fun _ => 0⟩]
    [mkTodayEntry ⟨2025, 10, 12⟩ []] [] rfl

/-- Counterexample to claim C4 as stated: the persisted content decodes as
JSON (a one-element list holding an object without a date field), yet
update_history does not complete: the subscript entry["date"] raises
KeyError, which the source guards only with `except ValueError`, so the
error escapes to the orchestrator and nothing is saved. -/
theorem claim_C4_counterexample :
    update_history [] 5 ⟨⟨2025, 10, 12⟩, 0⟩ (fun _ => 0)
        (Option.some (Option.some (PyVal.list [PyVal.dict []])))
      = Except.error PyErr.keyError ∧
    update_history [] 5 ⟨⟨2025, 10, 12⟩, 0⟩ (fun _ => 0)
        (Option.some (Option.some (PyVal.list [PyVal.dict [("date", PyVal.int 5)]])))
      = Except.error PyErr.typeError := ⟨rfl, rfl⟩

/-- The entry shape on which the retention loop cannot raise: a JSON
object holding a string under the date key. -/
def WellFormedEntry (e : PyVal) : Prop :=
  ∃ kvs s, e = PyVal.dict kvs ∧ lookupKey "date" kvs = Option.some (PyVal.str s)

theorem entryDateVal_dict (kvs : List (String × PyVal)) :
    entryDateVal (PyVal.dict kvs)
      = match lookupKey "date" kvs with
        | Option.some v => Except.ok v
        | Option.none => Except.error PyErr.keyError := rfl

/-- Claim C4 amended: for persisted content that decodes to a JSON list of
objects each holding a string date field, update_history completes without
raising (entries whose date string fails the calendar parse are dropped
silently); but a list entry missing the date field raises KeyError and a
non-string date raises TypeError, both of which escape to the caller,
because the source catches only JSONDecodeError at load time and
ValueError around the parse. -/
theorem claim_C4_amended {l : List PyVal} (items : List PyVal) (target : ℕ) (now : Now)
    (rand : ℕ → ℕ) (h : ∀ e ∈ l, WellFormedEntry e) :
    (update_history items target now rand
        (Option.some (Option.some (PyVal.list l)))).isOk = true := by
  have hp : ∀ e ∈ l, ∃ o, entryParsedMicros e = Except.ok o := by
    intro e he
    obtain ⟨kvs, s, rfl, hk⟩ := h e he
    refine ⟨(parseDate s).map (fun dd => dayNumber dd * microsPerDay), ?_⟩
    unfold entryParsedMicros
    rw [entryDateVal_dict, hk]
    rfl
  obtain ⟨kept, hkept⟩ := @pruneHistory_ok (cutoffMicros now) l hp
  have hdok : ∀ e ∈ kept, ∃ v, entryDateVal e = Except.ok v := by
    intro e he
    obtain ⟨kvs, s, rfl, hk⟩ := h e ((pruneHistory_sublist hkept).subset he)
    exact ⟨PyVal.str s, by rw [entryDateVal_dict, hk]⟩
  obtain ⟨deduped, hded⟩ := @dedupeToday_ok (formatDate now.date) kept hdok
  have hpy : pyIter (loadHistory (Option.some (Option.some (PyVal.list l))))
      = Except.ok l := rfl
  simp only [update_history]
  rw [hpy]
  dsimp only
  rw [hkept]
  dsimp only
  rw [hded]
  rfl

/-- Witness for the amended claim C4: a list whose single entry carries an
unparsable date string; the pass succeeds (the entry is dropped
silently). -/
theorem claim_C4_amended_witness :
    (update_history [] 5 ⟨⟨2025, 10, 12⟩, 0⟩ (fun _ => 0)
        (Option.some (Option.some (PyVal.list
          [PyVal.dict [("date", PyVal.str "not-a-date")]])))).isOk = true :=
  claim_C4_amended [] 5 ⟨⟨2025, 10, 12⟩, 0⟩ (fun _ => 0)
    (fun e he => ⟨[("date", PyVal.str "not-a-date")], "not-a-date",
      List.mem_singleton.mp he, rfl⟩)

/-- A canonical persisted record carrying a given date in the YYYY/MM/DD
scheme together with its matching recommend_YYYYMMDD.html artifact
name. -/
def recDate (dt : Date) : PyVal :=
  PyVal.dict [("date", PyVal.str (formatDate dt)),
              ("filename", PyVal.str (todayFilename dt)),
              ("items", PyVal.list [])]

theorem entryDateVal_recDate (dt : Date) :
    entryDateVal (recDate dt) = Except.ok (PyVal.str (formatDate dt)) := rfl

theorem entryParsedMicros_recDate {dt : Date} (h : ValidDate dt) :
    entryParsedMicros (recDate dt)
      = Except.ok (Option.some (dayNumber dt * microsPerDay)) := by
  unfold entryParsedMicros
  rw [entryDateVal_recDate]
  show Except.ok ((parseDate (formatDate dt)).map (fun d => dayNumber d * microsPerDay)) = _
  rw [parseDate_formatDate h]
  rfl

/-- Does the retention comparison of update_history keep a record dated
dt: the parsed midnight of dt is not below `now - 30 days`. -/
def keepsDate (now : Now) (dt : Date) : Bool :=
  decide (cutoffMicros now ≤ ((dayNumber dt * microsPerDay : ℕ) : ℤ))

/-- The retention comparison in day-and-time terms: a record dated up to
29 days back always survives, a record dated exactly 30 days back survives
exactly when the run happens at midnight sharp, and older records never
survive. -/
theorem keepsDate_iff {now : Now} {dt : Date} (hv : now.tod < microsPerDay) :
    keepsDate now dt = true ↔
      (dayNumber now.date ≤ dayNumber dt + 30 ∧
        (dayNumber now.date = dayNumber dt + 30 → now.tod = 0)) := by
  unfold keepsDate cutoffMicros nowMicros MAX_DAYS microsPerDay at *
  rw [decide_eq_true_eq]
  push_cast
  omega

theorem recDate_ne_mkTodayEntry {rd nd : Date} {its : List PyVal}
    (h : formatDate rd ≠ formatDate nd) : recDate rd ≠ mkTodayEntry nd its := by
  intro hEq
  apply h
  have h2 := congrArg entryDateVal hEq
  rw [entryDateVal_recDate, entryDateVal_mkTodayEntry] at h2
  injection h2 with h2
  injection h2

/-- Claim C5 amended: whether a record survives the prune depends on the
calendar dates and, at the boundary, on the time of day: with a
single-record log, the record dated rd stays in the saved log exactly when
rd is at most 30 days old and, in the exactly-30-days case, the run
happens at midnight sharp (time-of-day zero).  The comparison is
`parsed midnight >= now - 30 days` with `now` a full timestamp, not a
day-granularity comparison. -/
theorem claim_C5_amended {rd : Date} (items : List PyVal) (target : ℕ) (now : Now)
    (rand : ℕ → ℕ) (hnow : ValidNow now) (hrd : ValidDate rd)
    (hne : rd ≠ now.date) :
    update_history items target now rand
        (Option.some (Option.some (PyVal.list [recDate rd])))
      = Except.ok (mkTodayEntry now.date (sampleStep rand items target) ::
          (if keepsDate now rd = true then [recDate rd] else []),
          sampleStep rand items target) ∧
    (recDate rd ∈ (mkTodayEntry now.date (sampleStep rand items target) ::
          (if keepsDate now rd = true then [recDate rd] else [])) ↔
      (dayNumber now.date ≤ dayNumber rd + 30 ∧
        (dayNumber now.date = dayNumber rd + 30 → now.tod = 0))) := by
  have hnef : formatDate rd ≠ formatDate now.date :=
    fun hEq => hne (formatDate_inj hrd hnow.1 hEq)
  constructor
  · have hpr : pruneHistory (cutoffMicros now) [recDate rd]
        = Except.ok (if keepsDate now rd = true then [recDate rd] else []) := by
      rw [pruneHistory, entryParsedMicros_recDate hrd]
      dsimp only
      rw [pruneHistory]
      dsimp only
      by_cases hk : cutoffMicros now ≤ ((dayNumber rd * microsPerDay : ℕ) : ℤ)
      · rw [if_pos hk, if_pos (by rw [keepsDate]; exact decide_eq_true hk)]
      · rw [if_neg hk, if_neg (by rw [keepsDate]; exact fun hc => hk (of_decide_eq_true hc))]
    have hde : dedupeToday (formatDate now.date)
        (if keepsDate now rd = true then [recDate rd] else [])
        = Except.ok (if keepsDate now rd = true then [recDate rd] else []) := by
      by_cases hk : keepsDate now rd = true
      · rw [if_pos hk, dedupeToday, entryDateVal_recDate, dedupeToday]
        dsimp only
        rw [if_neg (by simp [eqStr, hnef])]
      · rw [if_neg hk]
        rfl
    have hpy : pyIter (loadHistory (Option.some (Option.some (PyVal.list [recDate rd]))))
        = Except.ok [recDate rd] := rfl
    simp only [update_history]
    rw [hpy]
    dsimp only
    rw [hpr]
    dsimp only
    rw [hde]
  · rw [← keepsDate_iff hnow.2.1]
    constructor
    · intro hmem
      rcases List.mem_cons.mp hmem with hEq | hmem'
      · exact absurd hEq (recDate_ne_mkTodayEntry hnef)
      · by_cases hk : keepsDate now rd = true
        · exact hk
        · rw [if_neg hk] at hmem'
          cases hmem'
    · intro hk
      rw [if_pos hk]
      exact List.mem_cons_of_mem _ (List.mem_singleton.mpr rfl)

/-- Witness for the amended claim C5: run of 2025-10-12 at noon over a
single record dated 2025-09-13 (29 days earlier): the record survives. -/
theorem claim_C5_amended_witness :
    update_history [] 5 ⟨⟨2025, 10, 12⟩, 43200000000⟩ (fun _ => 0)
        (Option.some (Option.some (PyVal.list [recDate ⟨2025, 9, 13⟩])))
      = Except.ok (mkTodayEntry ⟨2025, 10, 12⟩ (sampleStep (fun _ => 0) [] 5) ::
          (if keepsDate ⟨⟨2025, 10, 12⟩, 43200000000⟩ ⟨2025, 9, 13⟩ = true
            then [recDate ⟨2025, 9, 13⟩] else []),
          sampleStep (fun _ => 0) [] 5) ∧
    (recDate ⟨2025, 9, 13⟩ ∈ (mkTodayEntry ⟨2025, 10, 12⟩ (sampleStep (fun _ => 0) [] 5) ::
          (if keepsDate ⟨⟨2025, 10, 12⟩, 43200000000⟩ ⟨2025, 9, 13⟩ = true
            then [recDate ⟨2025, 9, 13⟩] else [])) ↔
      (dayNumber ⟨2025, 10, 12⟩ ≤ dayNumber ⟨2025, 9, 13⟩ + 30 ∧
        (dayNumber ⟨2025, 10, 12⟩ = dayNumber ⟨2025, 9, 13⟩ + 30 →
          (43200000000 : ℕ) = 0))) :=
  claim_C5_amended [] 5 ⟨⟨2025, 10, 12⟩, 43200000000⟩ (fun _ => 0)
    (by decide) (by decide) (by decide)

/-- Counterexample to claim C5 as stated: 2025-09-12 is exactly 30
calendar days before 2025-10-12, yet a run at noon drops the record (the
saved log holds only today's entry), because the comparison uses the full
`now - 30 days` timestamp and the record parses to midnight.  The claim
that such a record is retained for every time-of-day is false. -/
theorem claim_C5_counterexample :
    dayNumber ⟨2025, 10, 12⟩ = dayNumber ⟨2025, 9, 12⟩ + 30 ∧
    update_history [] 5 ⟨⟨2025, 10, 12⟩, 43200000000⟩ (fun _ => 0)
        (Option.some (Option.some (PyVal.list [recDate ⟨2025, 9, 12⟩])))
      = Except.ok ([mkTodayEntry ⟨2025, 10, 12⟩ []], []) := ⟨by decide, rfl⟩

/-- The pattern of claim C7 read as its words say: the whole filename is
recommend_<8 digits>.html with nothing after the extension.  This
transcribes the claim for comparison; the code's `re.match` anchors at the
start of the name only. -/
def fullPatternRecommendHtml (f : String) : Bool :=
  match stripLit "recommend_".data f.data with
  | Option.none => false
  | Option.some r =>
    decide ((r.take 8).length = 8) && (r.take 8).all isDig &&
      decide (r.drop 8 = ".html".data)

/-- Counterexample to claim C7 as stated: the filename
recommend_19000101.htmlX does not match the pattern
recommend_<8-digit-date>.html as a whole name (there is a trailing X), yet
the Janitor deletes it, because `re.match` anchors only at the start of
the string; so "filenames not matching the pattern are ignored" fails. -/
theorem claim_C7_counterexample :
    cleanup_old_html_files ⟨⟨2025, 10, 12⟩, 0⟩ ["recommend_19000101.htmlX"]
      = ["recommend_19000101.htmlX"] ∧
    fullPatternRecommendHtml "recommend_19000101.htmlX" = false := ⟨rfl, rfl⟩

theorem shouldDelete_iff {now : Now} {f : String} :
    shouldDelete now f = true ↔
      ∃ ds d rest, f.data = "recommend_".data ++ (ds ++ (".html".data ++ rest)) ∧
        ds.length = 8 ∧ ds.all isDig = true ∧ parseDate8 ds = Option.some d ∧
        (dayNumber d * microsPerDay : ℤ) < cutoffMicros now := by
  unfold shouldDelete
  cases hm : matchDate8 f with
  | none =>
    dsimp only
    constructor
    · intro h; cases h
    · rintro ⟨ds, d, rest, hdec, hlen, hdig, hp, hlt⟩
      have h1 : matchDate8 f = Option.some ds := matchDate8_eq_some.mpr ⟨hlen, hdig, rest, hdec⟩
      rw [hm] at h1
      cases h1
  | some ds0 =>
    obtain ⟨hlen0, hdig0, rest0, hdec0⟩ := matchDate8_eq_some.mp hm
    dsimp only
    cases hp0 : parseDate8 ds0 with
    | none =>
      dsimp only
      constructor
      · intro h; cases h
      · rintro ⟨ds, d, rest, hdec, hlen, hdig, hp, hlt⟩
        have h1 : matchDate8 f = Option.some ds := matchDate8_eq_some.mpr ⟨hlen, hdig, rest, hdec⟩
        rw [hm] at h1
        obtain rfl : ds0 = ds := by injection h1
        rw [hp0] at hp
        cases hp
    | some d0 =>
      dsimp only
      rw [decide_eq_true_eq]
      constructor
      · intro h
        exact ⟨ds0, d0, rest0, hdec0, hlen0, hdig0, hp0, h⟩
      · rintro ⟨ds, d, rest, hdec, hlen, hdig, hp, hlt⟩
        have h1 : matchDate8 f = Option.some ds := matchDate8_eq_some.mpr ⟨hlen, hdig, rest, hdec⟩
        rw [hm] at h1
        obtain rfl : ds0 = ds := by injection h1
        rw [hp0] at hp
        obtain rfl : d0 = d := by injection hp
        exact hlt

/-- Claim C7 amended: over any directory listing the Janitor deletes
exactly the filenames that BEGIN with recommend_<8 digits>.html (the
pattern is matched at the start of the name only, so trailing characters
after .html are allowed) whose digit field parses as a valid calendar date
whose midnight is strictly older than `now - 30 days`; every other
filename is left alone, and in particular a matching name whose digit
field is not a valid date is skipped; the function is total, so no input
raises. -/
theorem claim_C7_amended (now : Now) (files : List String) (f : String) :
    f ∈ cleanup_old_html_files now files ↔
      (f ∈ files ∧ ∃ ds d rest,
        f.data = "recommend_".data ++ (ds ++ (".html".data ++ rest)) ∧
        ds.length = 8 ∧ ds.all isDig = true ∧ parseDate8 ds = Option.some d ∧
        (dayNumber d * microsPerDay : ℤ) < cutoffMicros now) := by
  unfold cleanup_old_html_files
  rw [List.mem_filter]
  exact and_congr_right (fun _ => shouldDelete_iff)

/-- Claim C8: for every random stream and every pool, the sampling step of
update_history with the target count 5 used by the callers returns exactly
min(5, pool size) elements forming a sub-multiset of the pool (no position
chosen twice, every element from the pool), and the empty pool yields the
empty sequence. -/
theorem claim_C8_sampler_bound (rand : ℕ → ℕ) (pool : List PyVal) :
    (sampleStep rand pool 5).length = min 5 pool.length ∧
    List.Subperm (sampleStep rand pool 5) pool ∧
    sampleStep rand ([] : List PyVal) 5 = [] :=
  ⟨sampleStep_length rand pool 5, sampleStep_subperm rand pool 5, rfl⟩

theorem pruneHistory_recDates {now : Now} {ds : List Date}
    (h : ∀ dt ∈ ds, ValidDate dt) :
    pruneHistory (cutoffMicros now) (ds.map recDate)
      = Except.ok ((ds.filter (keepsDate now)).map recDate) := by
  induction ds with
  | nil => rfl
  | cons dt ds ih =>
    rw [List.map_cons, pruneHistory,
      entryParsedMicros_recDate (h dt (List.mem_cons_self dt ds)),
      ih (fun x hx => h x (List.mem_cons_of_mem dt hx))]
    dsimp only
    rw [List.filter_cons]
    by_cases hk : keepsDate now dt = true
    · rw [if_pos (of_decide_eq_true hk), if_pos hk, List.map_cons]
    · rw [if_neg (fun hc => hk (decide_eq_true hc)), if_neg hk]

theorem dedupeToday_recDates (t : String) (ds : List Date) :
    dedupeToday t (ds.map recDate)
      = Except.ok ((ds.filter (fun dt => decide (formatDate dt ≠ t))).map recDate) := by
  induction ds with
  | nil => rfl
  | cons dt ds ih =>
    rw [List.map_cons, dedupeToday, entryDateVal_recDate, ih]
    dsimp only
    rw [List.filter_cons]
    by_cases hq : formatDate dt = t
    · rw [if_pos (by simp [eqStr, hq]), if_neg (by simp [hq])]
    · rw [if_neg (by simp [eqStr, hq]), if_pos (by simp [hq]), List.map_cons]

theorem update_history_recDates {ds : List Date} (items : List PyVal) (target : ℕ)
    (now : Now) (rand : ℕ → ℕ) (h : ∀ dt ∈ ds, ValidDate dt) :
    update_history items target now rand
        (Option.some (Option.some (PyVal.list (ds.map recDate))))
      = Except.ok (mkTodayEntry now.date (sampleStep rand items target) ::
          (((ds.filter (keepsDate now)).filter
            (fun dt => decide (formatDate dt ≠ formatDate now.date))).map recDate),
          sampleStep rand items target) := by
  have hpy : pyIter (loadHistory (Option.some (Option.some (PyVal.list (ds.map recDate)))))
      = Except.ok (ds.map recDate) := rfl
  simp only [update_history]
  rw [hpy]
  dsimp only
  rw [pruneHistory_recDates h]
  dsimp only
  rw [dedupeToday_recDates]

/-- Today's record always survives its own retention comparison. -/
theorem keepsDate_self {now : Now} (h : ValidNow now) :
    keepsDate now now.date = true := by
  rw [keepsDate_iff h.2.1]
  omega

/-- On the canonical artifact name of a valid date, the Janitor's decision
is exactly the negation of the Retention Policy's keep decision: both
compare the same midnight against the same `now - 30 days` cutoff, one
strictly, one not. -/
theorem shouldDelete_todayFilename {now : Now} {dt : Date} (h : ValidDate dt) :
    shouldDelete now (todayFilename dt) = !(keepsDate now dt) := by
  unfold shouldDelete
  have hm : matchDate8 (todayFilename dt) = Option.some (pad8 dt) :=
    matchDate8_eq_some.mpr ⟨pad8_length dt, pad8_all_isDig dt, [], by simp [todayFilename]⟩
  rw [hm]
  dsimp only
  rw [parseDate8_pad8 h]
  dsimp only
  by_cases hk : cutoffMicros now ≤ ((dayNumber dt * microsPerDay : ℕ) : ℤ)
  · have h1 : ¬((dayNumber dt : ℤ) * (microsPerDay : ℤ) < cutoffMicros now) := by
      push_cast at hk ⊢
      omega
    have hk2 : keepsDate now dt = true := by rw [keepsDate]; exact decide_eq_true hk
    rw [hk2]
    simp only [Bool.not_true]
    exact decide_eq_false h1
  · have h1 : (dayNumber dt : ℤ) * (microsPerDay : ℤ) < cutoffMicros now := by
      push_cast at hk ⊢
      omega
    have hk2 : keepsDate now dt = false := by rw [keepsDate]; exact decide_eq_false hk
    rw [hk2]
    simp only [Bool.not_false]
    exact decide_eq_true h1

/-- The two pieces of on-disk state the two age-based passes act on: the
directory listing of artifact files and the history file. -/
structure Disk where
  files : List String
  hist : FileState

/-- One Retention Policy pass (update_history) as a state transformer: on
success the saved record list becomes the new history file content; on an
uncaught error nothing is saved. -/
def runPolicy (items : List PyVal) (target : ℕ) (now : Now) (rand : ℕ → ℕ)
    (st : Disk) : Disk :=
  match update_history items target now rand st.hist with
  | Except.ok (log, _) => ⟨st.files, Option.some (Option.some (PyVal.list log))⟩
  | Except.error _ => st

/-- One Artifact Janitor pass as a state transformer: the files it deletes
disappear from the listing; the history file is driven by the loaded log,
not by the listing, and is untouched. -/
def runJanitor (now : Now) (st : Disk) : Disk :=
  ⟨st.files.filter (fun f => !(shouldDelete now f)), st.hist⟩

/-- Claim C9: the Janitor and the Policy commute as state transformers
(they read and write disjoint parts of the disk), and with the same "now",
matching artifact names and record dates, they agree date by date: a date
keeps its record in the saved log exactly when its artifact survives the
Janitor, so no artifact is deleted while its record is retained and no
record is dropped while its artifact is kept. -/
theorem claim_C9_janitor_policy_consistency (items : List PyVal) (target : ℕ)
    (now : Now) (rand : ℕ → ℕ) {ds : List Date}
    (hnow : ValidNow now) (hds : ∀ dt ∈ ds, ValidDate dt) :
    (∀ st : Disk, runJanitor now (runPolicy items target now rand st)
        = runPolicy items target now rand (runJanitor now st)) ∧
    (∀ log disp, update_history items target now rand
        (Option.some (Option.some (PyVal.list (ds.map recDate)))) = Except.ok (log, disp) →
      ∀ dt ∈ ds,
        ((∃ e ∈ log, entryDateVal e = Except.ok (PyVal.str (formatDate dt))) ↔
          todayFilename dt ∉ cleanup_old_html_files now (ds.map todayFilename))) := by
  constructor
  · intro st
    unfold runJanitor runPolicy
    dsimp only
    cases update_history items target now rand st.hist with
    | error err => rfl
    | ok p =>
      obtain ⟨lg, dp⟩ := p
      rfl
  · intro log disp hu dt hdt
    rw [update_history_recDates items target now rand hds] at hu
    have hpair := Except.ok.inj hu
    have hlog := congrArg Prod.fst hpair
    dsimp only at hlog
    have hrhs : (todayFilename dt ∉ cleanup_old_html_files now (ds.map todayFilename))
        ↔ keepsDate now dt = true := by
      unfold cleanup_old_html_files
      rw [List.mem_filter]
      constructor
      · intro hn
        by_cases hk : keepsDate now dt = true
        · exact hk
        · exact absurd ⟨List.mem_map_of_mem todayFilename hdt,
            by rw [shouldDelete_todayFilename (hds dt hdt),
              Bool.eq_false_iff.mpr hk]; rfl⟩ hn
      · intro hk hmem
        have h1 := hmem.2
        rw [shouldDelete_todayFilename (hds dt hdt), hk] at h1
        cases h1
    rw [hrhs, ← hlog]
    constructor
    · rintro ⟨e, hmem, hdate⟩
      rcases List.mem_cons.mp hmem with hEq | hmem'
      · subst hEq
        rw [entryDateVal_mkTodayEntry] at hdate
        have hfd := PyVal.str.inj (Except.ok.inj hdate)
        have : now.date = dt := formatDate_inj hnow.1 (hds dt hdt) hfd
        rw [← this]
        exact keepsDate_self hnow
      · obtain ⟨dt', hdt', hEq'⟩ := List.mem_map.mp hmem'
        have hdt'ds : dt' ∈ ds :=
          List.mem_of_mem_filter (List.mem_of_mem_filter hdt')
        have hkeep' : keepsDate now dt' = true :=
          (List.mem_filter.mp (List.mem_of_mem_filter hdt')).2
        rw [← hEq', entryDateVal_recDate] at hdate
        have hfd := PyVal.str.inj (Except.ok.inj hdate)
        have : dt' = dt := formatDate_inj (hds dt' hdt'ds) (hds dt hdt) hfd
        rw [← this]
        exact hkeep'
    · intro hk
      by_cases hEq : dt = now.date
      · refine ⟨mkTodayEntry now.date (sampleStep rand items target), List.mem_cons_self _ _, ?_⟩
        rw [entryDateVal_mkTodayEntry, hEq]
      · refine ⟨recDate dt, List.mem_cons_of_mem _ ?_, entryDateVal_recDate dt⟩
        refine List.mem_map_of_mem recDate ?_
        refine List.mem_filter.mpr ⟨List.mem_filter.mpr ⟨hdt, hk⟩, ?_⟩
        rw [decide_eq_true_eq]
        exact fun hf => hEq (formatDate_inj (hds dt hdt) hnow.1 hf)

/-- Witness for claim C9 at a concrete state: 2025-10-12 noon, one record
and one artifact dated 2025-09-13 (29 days back); the passes commute and
the date keeps both its record and its artifact. -/
theorem claim_C9_janitor_policy_consistency_witness :
    runJanitor ⟨⟨2025, 10, 12⟩, 43200000000⟩
        (runPolicy [] 5 ⟨⟨2025, 10, 12⟩, 43200000000⟩ (fun _ => 0)
          ⟨[todayFilename ⟨2025, 9, 13⟩],
            Option.some (Option.some (PyVal.list [recDate ⟨2025, 9, 13⟩]))⟩)
      = runPolicy [] 5 ⟨⟨2025, 10, 12⟩, 43200000000⟩ (fun _ => 0)
          (runJanitor ⟨⟨2025, 10, 12⟩, 43200000000⟩
            ⟨[todayFilename ⟨2025, 9, 13⟩],
              Option.some (Option.some (PyVal.list [recDate ⟨2025, 9, 13⟩]))⟩) ∧
    ((∃ e ∈ [mkTodayEntry ⟨2025, 10, 12⟩ [], recDate ⟨2025, 9, 13⟩],
        entryDateVal e = Except.ok (PyVal.str (formatDate ⟨2025, 9, 13⟩))) ↔
      todayFilename ⟨2025, 9, 13⟩ ∉ cleanup_old_html_files ⟨⟨2025, 10, 12⟩, 43200000000⟩
        [todayFilename ⟨2025, 9, 13⟩]) := by
  have h := @claim_C9_janitor_policy_consistency [] 5 ⟨⟨2025, 10, 12⟩, 43200000000⟩
    (fun _ => 0) [⟨2025, 9, 13⟩] (by decide) (by decide)
  exact ⟨h.1 _, h.2 [mkTodayEntry ⟨2025, 10, 12⟩ [], recDate ⟨2025, 9, 13⟩] [] rfl
    ⟨2025, 9, 13⟩ (List.mem_singleton.mpr rfl)⟩
